import Mathlib

/-!
# Verification of the velour/chat bridge

A shallow embedding of the chat-bridge engine (package `bridge`), the chat
data model (`client.go`), the Telegram adapter's event translation and
long-poll loop (package `telegram`), and the canonical HTML formatter
(`format.go`), together with theorems settling the specification claims.

Two revisions of the bridge exist in the sources; where they differ, both
are embedded: the current revision keeps the source name (e.g. `logMessage`)
and the older revision in `bridge/bridge.go` carries a `_v1` suffix
(e.g. `logMessage_v1`).

Concurrency is modelled by determinising the `errgroup` fan-out: each
per-sibling goroutine always runs (so the call trace contains every call the
Go code issues), results are collected in channel order, and `group.Wait`'s
error is the first goroutine error in that order.  Go panics (nil-pointer
dereferences) are modelled by `Option`: `none` is a panic.
-/

deriving instance DecidableEq for Except

namespace VelourChat

/-- A `chat.Channel` handle.  Go channels are interface values compared with
`==` (pointer identity); `tag` models the identity, `name`/`service` the
`Name()` and `ServiceName()` methods. -/
structure Channel where
  tag : Nat
  name : String
  service : String
deriving DecidableEq, Repr

/-- `chat.User` from `client.go`.  `channel` is the `Channel` interface field,
which may be nil (`none`). -/
structure User where
  id : String
  nick : String
  fullName : String
  displayName : String
  photoURL : String
  channel : Option Channel
deriving DecidableEq, Repr

/-- `User.Name` from `client.go`: the display-name cascade. -/
def User.name (u : User) : String :=
  if u.displayName ≠ "" then u.displayName
  else if u.nick ≠ "" then u.nick
  else if u.fullName ≠ "" then u.fullName
  else if u.id ≠ "" then u.id
  else "unknown"

/-- The immediate reply parent of a message (`Message.ReplyTo *Message` in
`client.go`).  Per the spec, "id, text, from sufficient; transitive chains
need not be preserved", and no code under analysis reads a parent's own
`ReplyTo`, so the parent is flattened to its id, sender and text. -/
structure RMsg where
  id : String
  from_ : Option User
  text : String
deriving DecidableEq, Repr

/-- `chat.Message` from `client.go`: id, optional reply parent, optional
sender (`From *User`), text. -/
structure Message where
  id : String
  replyTo : Option RMsg
  from_ : Option User
  text : String
deriving DecidableEq, Repr

/-- The zero value `chat.Message{}`. -/
def zeroMessage : Message := ⟨"", none, none, ""⟩

/-- Forget a message's own reply pointer when it is stored as a parent. -/
def Message.toR (m : Message) : RMsg := ⟨m.id, m.from_, m.text⟩

def Message.withReplyTo (m : Message) (r : Option RMsg) : Message :=
  { m with replyTo := r }

def Message.withText (m : Message) (t : String) : Message :=
  { m with text := t }

def Message.withID (m : Message) (i : String) : Message :=
  { m with id := i }

/-- The `chat.Event` union.  `reply` exists in the chat revision used by the
Telegram adapters (`chat.Reply`); the current bridge has no case for it. -/
inductive Event where
  | message (m : Message)
  | reply (replyTo reply : Message)
  | delete (id : String) (channel : Channel)
  | edit (origId : String) (new : Message)
  | join (who : User)
  | leave (who : User)
  | rename (from_ to_ : User)
deriving DecidableEq, Repr

/-- `Event.Origin()`.  Go dereferences `From` (`e.From.Channel` etc.); a nil
`From` or nil `Channel` is `none` (the subsequent `origin.Name()` call in
`relay` would panic). -/
def Event.origin : Event → Option Channel
  | .message m => m.from_.bind User.channel
  | .reply _ r => r.from_.bind User.channel
  | .delete _ ch => some ch
  | .edit _ new => new.from_.bind User.channel
  | .join who => who.channel
  | .leave who => who.channel
  | .rename _ t => t.channel

/-- Go `error` values that appear in the bridge:  `io.EOF`,
`context.DeadlineExceeded`, `context.Canceled`, and string errors built with
`errors.New` / `fmt.Errorf`. -/
inductive GoErr where
  | eof
  | deadline
  | canceled
  | str (s : String)
deriving DecidableEq, Repr

/-- Rendering of an error (`err.Error()`), used when wrapping with
`fmt.Errorf("...: %s", err)`. -/
def GoErr.text : GoErr → String
  | .eof => "EOF"
  | .deadline => "context deadline exceeded"
  | .canceled => "context canceled"
  | .str s => s

/-- The bridge's `message` struct: `{To chat.Channel; Msg chat.Message}`.
`to = none` models the zero value's nil interface. -/
structure Copy where
  to_ : Option Channel
  msg : Message
deriving DecidableEq, Repr

/-- A history entry of the current bridge revision: `log [][]message`. -/
abbrev LogEntry := List Copy

/-- A history entry of the older `bridge/bridge.go` revision:
`logEntry{origin chat.Channel; copies []message}`. -/
structure EntryV1 where
  origin : Channel
  copies : List Copy
deriving DecidableEq, Repr

/-- `maxHistory = 500`. -/
def maxHistory : Nat := 500

/-- `logMessage` of the current bridge revision:
`b.log = append(b.log, entry); if len(b.log) > maxHistory { b.log = b.log[1:] }`. -/
def logMessage (log : List LogEntry) (entry : LogEntry) : List LogEntry :=
  let l := log ++ [entry]
  if l.length > maxHistory then l.drop 1 else l

/-- `logMessage` of the older `bridge/bridge.go` revision:
`b.log = append(b.log, entry); if len(b.log) > maxHistory { b.log = b.log[:maxHistory] }`. -/
def logMessage_v1 (log : List EntryV1) (entry : EntryV1) : List EntryV1 :=
  let l := log ++ [entry]
  if l.length > maxHistory then l.take maxHistory else l

/-- The scan inside `makeFindMessage`: does entry `e` contain a copy
`(origin, id)`?  (`c.To == origin && c.Msg.ID == id`.) -/
def entryHas (e : LogEntry) (origin : Channel) (id : String) : Bool :=
  e.any fun c => c.to_ == some origin && c.msg.id == id

/-- The outer loop of `makeFindMessage`: first entry containing `(origin, id)`.
The Go loop scans `b.log` front (oldest) to back and breaks at the first hit. -/
def findEntry (log : List LogEntry) (origin : Channel) (id : String) :
    Option LogEntry :=
  log.find? fun e => entryHas e origin id

/-- The closure returned by `makeFindMessage`: the copy of the found entry
whose channel is `ch`, or nil. -/
def findCopy (entry : LogEntry) (ch : Channel) : Option Message :=
  (entry.find? fun c => c.to_ == some ch).map Copy.msg

/-- `makeFindMessage(b, origin, id)` of the current bridge revision. -/
def makeFindMessage (log : List LogEntry) (origin : Channel) (id : String) :
    Channel → Option Message :=
  fun ch =>
    match findEntry log origin id with
    | none => none
    | some e => findCopy e ch

/-- `makeFindMessage` of the older `bridge/bridge.go` revision (same scan over
`logEntry.copies`). -/
def makeFindMessage_v1 (log : List EntryV1) (origin : Channel) (id : String) :
    Channel → Option Message :=
  fun ch =>
    match log.find? (fun e => entryHas e.copies origin id) with
    | none => none
    | some e => findCopy e.copies ch

/-- `allChannelsExcept(b, exclude)`. -/
def allChannelsExcept (channels : List Channel) (exclude : Channel) :
    List Channel :=
  channels.filter fun ch => ch != exclude

/-- The behaviour of the bridged adapters (the `chat.Channel` send-style
methods the fan-out invokes).  Each method returns the Go call's
`(Message, error)` pair. -/
structure Env where
  send : Channel → Message → Message × Option GoErr
  edit : Channel → Message → Message × Option GoErr
  del : Channel → Message → Option GoErr

/-- One adapter call issued by the fan-out. -/
inductive Call where
  | send (ch : Channel) (m : Message)
  | edit (ch : Channel) (m : Message)
  | del (ch : Channel) (m : Message)
deriving DecidableEq, Repr

/-- The result of one fan-out goroutine: the calls it issued, the slot it
left in the `messages` slice, and its returned error (if any). -/
structure FanRes where
  calls : List Call
  copy : Copy
  err : Option GoErr
deriving DecidableEq, Repr

/-- `group.Wait()` over the per-channel goroutine results: the first error in
channel order (`errgroup` returns one goroutine's error; which one is
scheduling-dependent, deterministically modelled as the first). -/
def groupWait (per : List FanRes) : Option GoErr :=
  (per.filterMap FanRes.err).head?

/-- Collect the goroutine results, as the fan-out functions do: on the first
error the message slice is discarded (`return nil, err`), otherwise the
filled slice is returned. -/
def fanCollect (per : List FanRes) : List Call × Except GoErr (List Copy) :=
  match groupWait per with
  | some e => (per.flatMap FanRes.calls, Except.error e)
  | none => (per.flatMap FanRes.calls, Except.ok (per.map FanRes.copy))

/-- The reply-resolution closure of `sendMessage`: nil unless the message is
a reply, in which case `makeFindMessage(b, msg.Origin(), msg.ReplyTo.ID)`.
`none` models the panic of `msg.Origin()` when `msg.ReplyTo != nil` but
`msg.From == nil`. -/
def findReplyFn (log : List LogEntry) (msg : Message) :
    Option (Channel → Option Message) :=
  match msg.replyTo with
  | none => some fun _ => none
  | some r =>
    match msg.from_.bind User.channel with
    | none => none
    | some o => some (makeFindMessage log o r.id)

/-- One `sendMessage` goroutine: set the per-channel reply target, call
`Send`; `context.DeadlineExceeded` is swallowed; other errors are wrapped;
the slot is filled with the returned message either way. -/
def sendPer (env : Env) (findReply : Channel → Option Message) (msg : Message)
    (ch : Channel) : FanRes :=
  let m := msg.withReplyTo ((findReply ch).map Message.toR)
  let res := env.send ch m
  { calls := [Call.send ch m]
    copy := ⟨some ch, res.1⟩
    err :=
      match res.2 with
      | none => none
      | some e =>
        if e == GoErr.deadline then none
        else some (GoErr.str ("failed to send message to " ++ ch.name ++
          " on " ++ ch.service ++ ": " ++ e.text ++ "\n")) }

/-- `sendMessage` of the current bridge revision: resolve the reply target
per channel and send concurrently to every channel under a 1s deadline. -/
def sendMessage (env : Env) (log : List LogEntry) (channels : List Channel)
    (msg : Message) : Option (List Call × Except GoErr (List Copy)) :=
  (findReplyFn log msg).map fun findReply =>
    fanCollect (channels.map (sendPer env findReply msg))

/-- One `editMessage` goroutine of the current revision: no copy or
unchanged text means no call and a zero slot; otherwise call `Edit` with the
copy carrying the new text. -/
def editPer (env : Env) (findMessage : Channel → Option Message)
    (text : String) (ch : Channel) : FanRes :=
  match findMessage ch with
  | none => { calls := [], copy := ⟨none, zeroMessage⟩, err := none }
  | some msg =>
    if msg.text == text then
      -- Don't call ch.Edit if the text hasn't changed.
      { calls := [], copy := ⟨none, zeroMessage⟩, err := none }
    else
      let m := msg.withText text
      let res := env.edit ch m
      match res.2 with
      | some e =>
        { calls := [Call.edit ch m], copy := ⟨none, zeroMessage⟩
          err := some (GoErr.str ("failed to send edit to " ++ ch.name ++
            " on " ++ ch.service ++ ": " ++ e.text)) }
      | none =>
        { calls := [Call.edit ch m], copy := ⟨some ch, res.1⟩, err := none }

/-- `editMessage` of the current bridge revision. -/
def editMessage (env : Env) (channels : List Channel)
    (findMessage : Channel → Option Message) (text : String) :
    List Call × Except GoErr (List Copy) :=
  fanCollect (channels.map (editPer env findMessage text))

/-- One `editMessage` goroutine of the older `bridge/bridge.go` revision:
identical except that it does not skip an unchanged text. -/
def editPer_v1 (env : Env) (findMessage : Channel → Option Message)
    (text : String) (ch : Channel) : FanRes :=
  match findMessage ch with
  | none => { calls := [], copy := ⟨none, zeroMessage⟩, err := none }
  | some msg =>
    let m := msg.withText text
    let res := env.edit ch m
    match res.2 with
    | some e =>
      { calls := [Call.edit ch m], copy := ⟨none, zeroMessage⟩
        err := some (GoErr.str ("failed to send edit to " ++ ch.name ++
          " on " ++ ch.service ++ ": " ++ e.text)) }
    | none =>
      { calls := [Call.edit ch m], copy := ⟨some ch, res.1⟩, err := none }

/-- `editMessage` of the older `bridge/bridge.go` revision. -/
def editMessage_v1 (env : Env) (channels : List Channel)
    (findMessage : Channel → Option Message) (text : String) :
    List Call × Except GoErr (List Copy) :=
  fanCollect (channels.map (editPer_v1 env findMessage text))

/-- One `deleteMessage` goroutine: delete the copy if the channel has one. -/
def delPer (env : Env) (findMessage : Channel → Option Message)
    (ch : Channel) : FanRes :=
  match findMessage ch with
  | none => { calls := [], copy := ⟨none, zeroMessage⟩, err := none }
  | some msg =>
    match env.del ch msg with
    | some e =>
      { calls := [Call.del ch msg], copy := ⟨none, zeroMessage⟩
        err := some (GoErr.str ("failed to send delete to " ++ ch.name ++
          " on " ++ ch.service ++ ": " ++ e.text)) }
    | none => { calls := [Call.del ch msg], copy := ⟨none, zeroMessage⟩, err := none }

/-- `deleteMessage`: delete the copy on each channel that has one. -/
def deleteMessage (env : Env) (channels : List Channel)
    (findMessage : Channel → Option Message) : List Call × Option GoErr :=
  let per := channels.map (delPer env findMessage)
  (per.flatMap FanRes.calls, groupWait per)

/-- `relay` of the current bridge revision, acting on the history log.
Returns the adapter calls issued and either the relay error or the updated
log.  `none` models a panic while resolving `event.Origin()` (nil `From`). -/
def relay (env : Env) (channels : List Channel) (log : List LogEntry)
    (event : Event) : Option (List Call × Except GoErr (List LogEntry)) :=
  match event.origin with
  | none => none
  | some origin =>
    let origName := origin.name ++ " on " ++ origin.service
    match event with
    | .message ev =>
      (sendMessage env log (allChannelsExcept channels origin) ev).map
        fun (calls, res) =>
          match res with
          | .error e => (calls, .error e)
          | .ok msgs =>
            (calls, .ok (logMessage log (msgs ++ [⟨some origin, ev⟩])))
    | .delete id _ =>
      let findMessage := makeFindMessage log origin id
      let (calls, err) :=
        deleteMessage env (allChannelsExcept channels origin) findMessage
      some (calls, match err with | some e => .error e | none => .ok log)
    | .edit origId new =>
      let findMessage := makeFindMessage log origin origId
      match findMessage origin with
      | none =>
        -- The original message has gone off the end of history: no-op.
        some ([], .ok log)
      | some origMsg =>
        let (calls, res) :=
          editMessage env (allChannelsExcept channels origin) findMessage new.text
        match res with
        | .error e => some (calls, .error e)
        | .ok msgs =>
          some (calls,
            .ok (logMessage log (msgs ++ [⟨some origin, origMsg.withID new.id⟩])))
    | .join who =>
      let msg : Message := ⟨"", none, none, who.name ++ " joined " ++ origName⟩
      (sendMessage env log (allChannelsExcept channels origin) msg).map
        fun (calls, res) =>
          (calls, match res with | .error e => .error e | .ok _ => .ok log)
    | .leave who =>
      let msg : Message := ⟨"", none, none, who.name ++ " left " ++ origName⟩
      (sendMessage env log (allChannelsExcept channels origin) msg).map
        fun (calls, res) =>
          (calls, match res with | .error e => .error e | .ok _ => .ok log)
    | .rename f t =>
      if f.name == t.name then some ([], .ok log)
      else
        let msg : Message :=
          ⟨"", none, none, f.name ++ " renamed to " ++ t.name ++ " in " ++ origName⟩
        (sendMessage env log (allChannelsExcept channels origin) msg).map
          fun (calls, res) =>
            (calls, match res with | .error e => .error e | .ok _ => .ok log)
    | .reply _ _ =>
      -- The current chat revision has no Reply event; the type switch in
      -- relay falls through and returns nil.
      some ([], .ok log)

/-- The `chat.Edit` case of `relay` in the older `bridge/bridge.go` revision:
it calls `editMessage` and then unconditionally dereferences
`*findMessage(origin)`; when the entry is absent that pointer is nil, so the
result is `none` (panic).  `bridge` is the Bridge itself (logged as the
entry's origin: `logEntry{origin: b, copies: msgs}`). -/
def relayEdit_v1 (env : Env) (bridge : Channel) (channels : List Channel)
    (log : List EntryV1) (origin : Channel) (origId : String) (new : Message) :
    Option (List Call × Except GoErr (List EntryV1)) :=
  let findMessage := makeFindMessage_v1 log origin origId
  let (calls, res) :=
    editMessage_v1 env (allChannelsExcept channels origin) findMessage new.text
  match res with
  | .error e => some (calls, .error e)
  | .ok msgs =>
    match findMessage origin with
    | none => none
    | some origMsg =>
      some (calls,
        .ok (logMessage_v1 log
          ⟨bridge, msgs ++ [⟨some origin, origMsg.withID new.id⟩]⟩))

/-- Bridge state touched by `Send`: the `nextID` counter and the history. -/
structure BState where
  nextID : Nat
  log : List LogEntry
deriving DecidableEq, Repr

/-- `Bridge.Send` of the current revision: fan out to all bridged channels;
on error return the zero `chat.Message` and the error without touching the
state; otherwise assign `nextID` (post-increment, decimal), append the
bridge's own copy, and record the entry. -/
def bridgeSend (env : Env) (bridge : Channel) (channels : List Channel)
    (st : BState) (msg : Message) :
    Option (List Call × BState × Message × Option GoErr) :=
  (sendMessage env st.log channels msg).map fun (calls, res) =>
    match res with
    | .error e => (calls, st, zeroMessage, some e)
    | .ok msgs =>
      let m := msg.withID (toString st.nextID)
      (calls,
        ⟨st.nextID + 1, logMessage st.log (msgs ++ [⟨some bridge, m⟩])⟩,
        m, none)

/-- The event branch of the `mux` goroutine, iterated over a stream of
events: relay each event, and only if the relay succeeds append the event to
the receive buffer (`recvIn`); a relay error is forwarded to `closeError`
and the loop returns.  The result is `(events delivered to Receive, final
log, error published to closeError)`; `none` models a relay panic. -/
def muxRun (env : Env) (channels : List Channel) :
    List Event → List LogEntry →
    Option (List Event × List LogEntry × Option GoErr)
  | [], log => some ([], log, none)
  | ev :: rest, log =>
    match relay env channels log ev with
    | none => none
    | some (_, .error e) => some ([], log, some e)
    | some (_, .ok log') =>
      (muxRun env channels rest log').map fun (delivered, lg, r) =>
        (ev :: delivered, lg, r)

/-- `Bridge.Close`: reads `closeError` and maps `io.EOF` to
`errors.New("unexpected EOF")`. -/
def bridgeClose (closeError : Option GoErr) : Option GoErr :=
  match closeError with
  | some .eof => some (.str "unexpected EOF")
  | r => r

/-! ## Telegram adapter -/

/-- `unicode.IsSpace` restricted to the characters Go's Latin-1 fast path
recognises (`' '`, `\t`, `\n`, `\v`, `\f`, `\r`, U+0085, U+00A0); the wider
Unicode space categories do not occur in the texts under analysis. -/
def goIsSpace (c : Char) : Bool :=
  c == ' ' || c == '\t' || c == '\n' || c == '\x0b' || c == '\x0c' ||
  c == '\r' || c == '\u0085' || c == '\u00A0'

/-- `strings.TrimSpace`. -/
def goTrimSpaceFull (s : List Char) : List Char :=
  ((s.dropWhile goIsSpace).reverse.dropWhile goIsSpace).reverse

/-- A Telegram `User` (`message.go`): int64 id, names, username. -/
structure TeleUser where
  id : Int
  firstName : String
  lastName : String
  username : String
deriving DecidableEq, Repr

/-- A Telegram `Message`, restricted to the fields `chatEvent` consults on
updates without media attachments (the Document/Photo/Sticker branches come
after the member branches and are unreachable for the claims' inputs).
`replyToMessage` is flattened to the fields `chatMessage` reads of it. -/
structure TeleReply where
  messageID : Nat
  fromU : Option TeleUser
  text : Option String
deriving DecidableEq, Repr

structure TeleMessage where
  messageID : Nat
  fromU : Option TeleUser
  time : Int
  replyToMessage : Option TeleReply
  newChatMember : Option TeleUser
  leftChatMember : Option TeleUser
  text : Option String
deriving DecidableEq, Repr

/-- A Telegram `Update`. -/
structure TeleUpdate where
  updateID : Nat
  message : Option TeleMessage
  editedMessage : Option TeleMessage
deriving DecidableEq, Repr

/-- `chatMessageID`: `strconv.FormatUint(m.MessageID, 10)`. -/
def chatMessageID (mid : Nat) : String := toString mid

/-- `chatUser` of the Telegram channel (`telegram/channel.go`, current
revision): display/full name from first+last name, nick falls back to the
name, photo URL from the client's user registry (abstracted as `photoOf`),
and the channel handle. -/
def chatUser (photoOf : Int → String) (ch : Channel) (user : TeleUser) : User :=
  let name := String.mk (goTrimSpaceFull
    (user.firstName ++ " " ++ user.lastName).toList)
  let nick := if user.username == "" then name else user.username
  { id := toString user.id
    nick := nick
    fullName := name
    displayName := name
    photoURL := photoOf user.id
    channel := some ch }

/-- `messageText(m)`. -/
def messageText (t : Option String) : String :=
  match t with
  | some s => s
  | none => ""

/-- `chatMessage(ch, m)`; its `chatUser(ch, *m.From)` dereference requires a
sender, which the callers guard. -/
def chatMessageT (photoOf : Int → String) (ch : Channel) (m : TeleMessage)
    (sender : TeleUser) : Message :=
  { id := chatMessageID m.messageID
    replyTo := none
    from_ := some (chatUser photoOf ch sender)
    text := messageText m.text }

def chatReplyT (photoOf : Int → String) (ch : Channel) (r : TeleReply)
    (sender : TeleUser) : Message :=
  { id := chatMessageID r.messageID
    replyTo := none
    from_ := some (chatUser photoOf ch sender)
    text := messageText r.text }

/-- Outcome of `chatEvent`: an ignored update (`nil, nil`), a produced event,
or a nil-pointer dereference (panic). -/
inductive TeleOutcome where
  | ignored
  | crashed
  | produced (e : Event)
deriving DecidableEq, Repr

/-- The member and text branches of `chatEvent` after the reply case. -/
def chatEventMembers (photoOf : Int → String) (ch : Channel) (m : TeleMessage)
    (sender : TeleUser) : TeleOutcome :=
  match m.newChatMember with
  | some w => .produced (.join (chatUser photoOf ch w))
  | none =>
    match m.leftChatMember with
    | some _ =>
      -- BUG under test: the source reads `*msg.NewChatMember` here,
      -- which is nil in this branch.
      .crashed
    | none =>
      match m.text with
      | some _ => .produced (.message (chatMessageT photoOf ch m sender))
      | none => .ignored

/-- `chatEvent` of the current Telegram revision.  The member branches read:
`case msg.NewChatMember != nil: who := chatUser(ch, *msg.NewChatMember);
return chat.Join{...}` and `case msg.LeftChatMember != nil:
who := chatUser(ch, *msg.NewChatMember); return chat.Leave{...}` — the Leave
branch also dereferences `NewChatMember`, which is nil whenever that branch
is reached. -/
def chatEvent (photoOf : Int → String) (ch : Channel) (created : Int)
    (u : TeleUpdate) : TeleOutcome :=
  match u.message with
  | some m =>
    if m.time < created then .ignored
    else
      match m.fromU with
      | none => .ignored
      | some sender =>
        match m.replyToMessage with
        | some r =>
          match r.fromU with
          | some rSender =>
            .produced (.reply (chatReplyT photoOf ch r rSender)
              (chatMessageT photoOf ch m sender))
          | none => chatEventMembers photoOf ch m sender
        | none => chatEventMembers photoOf ch m sender
  | none =>
    match u.editedMessage with
    | some m =>
      if m.time < created then .ignored
      else
        match m.fromU with
        | some sender =>
          .produced (.edit (chatMessageID m.messageID)
            (chatMessageT photoOf ch m sender))
        | none => .crashed
    | none => .ignored

/-- The long-poll loop body of `telegram/client.go`'s `poll`: offsets are
`uint64`; on a successful `getUpdates` with a non-empty result the offset
becomes the last update's id plus one (wrapping) and the batch is submitted;
an empty result changes nothing and submits nothing. -/
def pollStep (offset : Nat) (resp : List TeleUpdate) :
    Nat × Option (List TeleUpdate) :=
  match resp.getLast? with
  | none => (offset, none)
  | some last => ((last.updateID + 1) % 2 ^ 64, some resp)

/-- The offset after a sequence of successful `getUpdates` responses. -/
def pollRun (offset : Nat) : List (List TeleUpdate) → Nat
  | [] => offset
  | r :: rs => pollRun (pollStep offset r).1 rs

/-- The long-poll contract: each response carries updates with ids at least
the offset that requested them (the request passes `offset`, and Telegram
returns updates with `update_id >= offset`), below the `uint64` wrap. -/
inductive ValidResps : Nat → List (List TeleUpdate) → Prop
  | nil (o : Nat) : ValidResps o []
  | cons (o : Nat) (r : List TeleUpdate) (rs : List (List TeleUpdate))
      (h : ∀ u ∈ r, o ≤ u.updateID ∧ u.updateID + 1 < 2 ^ 64)
      (tail : ValidResps (pollStep o r).1 rs) : ValidResps o (r :: rs)

/-! ## The canonical formatter (telegram `format.go`) -/

/-- `html.EscapeString`, per character. -/
def htmlEscapeChar (c : Char) : List Char :=
  if c == '&' then "&amp;".toList
  else if c == '\'' then "&#39;".toList
  else if c == '<' then "&lt;".toList
  else if c == '>' then "&gt;".toList
  else if c == '"' then "&#34;".toList
  else [c]

/-- `html.EscapeString`. -/
def htmlEscape (s : List Char) : List Char := s.flatMap htmlEscapeChar

/-- `isNonNewlineSpace(r)`: `r != '\n' && unicode.IsSpace(r)`. -/
def isNonNewlineSpace (c : Char) : Bool := c != '\n' && goIsSpace c

/-- `trimSpace(s)`: `strings.TrimFunc(s, isNonNewlineSpace)`. -/
def trimSpace (s : List Char) : List Char :=
  ((s.dropWhile isNonNewlineSpace).reverse.dropWhile isNonNewlineSpace).reverse

/-- `strings.HasPrefix`. -/
def leadsWith : List Char → List Char → Bool
  | [], _ => true
  | _ :: _, [] => false
  | p :: ps, c :: cs => p == c && leadsWith ps cs

/-- `strings.Index(text, pat)`: index of the first occurrence. -/
def indexOfSub (pat : List Char) : List Char → Option Nat
  | [] => if leadsWith pat [] then some 0 else none
  | c :: cs =>
    if leadsWith pat (c :: cs) then some 0
    else (indexOfSub pat cs).map (· + 1)

theorem indexOfSub_ne_nil (pat : List Char) (hp : pat ≠ []) (t : List Char)
    (i : Nat) (h : indexOfSub pat t = some i) : t ≠ [] := by
  intro ht
  subst ht
  cases pat with
  | nil => exact hp rfl
  | cons p ps => simp [indexOfSub, leadsWith] at h

def httpPat : List Char := "http".toList

def httpSlashes : List Char := "http://".toList

def httpsSlashes : List Char := "https://".toList

/-- The preceding-rune check of `linkIndex`: the candidate passes when it is
at the start of the text or the rune before it
(`utf8.DecodeLastRuneInString(text[:i])`) is whitespace. -/
def precededOk (text : List Char) (i : Nat) : Bool :=
  i == 0 ||
    (match (text.take i).getLast? with
     | some r => goIsSpace r
     | none => true)

/-- `strings.Fields(text[i:])[0]`: the whitespace-delimited field starting at
`i` (the callers guarantee `text[i]` is not whitespace). -/
def fieldAt (text : List Char) (i : Nat) : List Char :=
  (text.drop i).takeWhile fun c => !goIsSpace c

/-- The loop of `linkIndex(text)`, structurally recursive on a fuel that
bounds the number of iterations: every iteration either returns or resumes
past the found occurrence, consuming at least one rune, so `text.length`
iterations always suffice (`linkIndexAux_stable` below proves the fuel is
exact: at fuel `0` the remaining text is empty and the loop would return
`none` anyway).  The link candidate is the whitespace-delimited field at the
first occurrence of "http"; it must carry an `http://` or `https://` prefix,
be preceded by whitespace or start of line, and be accepted by `url.Parse`
(abstracted as the predicate `u`, since `net/url` is outside the
repository).  On rejection the scan resumes one rune past the occurrence,
exactly as the Go `goto next` loop does. -/
def linkIndexAux (u : List Char → Bool) : Nat → List Char → Option (Nat × List Char)
  | 0, _ => none
  | fuel + 1, text =>
    match indexOfSub httpPat text with
    | none => none
    | some i =>
      if (leadsWith httpSlashes (fieldAt text i) ||
            leadsWith httpsSlashes (fieldAt text i)) &&
          precededOk text i &&
          u (fieldAt text i) then
        some (i, fieldAt text i)
      else
        (linkIndexAux u fuel (text.drop (i + 1))).map fun p => (i + 1 + p.1, p.2)

/-- `linkIndex(text)`: index and text of the first link, or `none` (Go's
`-1, ""`). -/
def linkIndex (u : List Char → Bool) (text : List Char) :
    Option (Nat × List Char) :=
  linkIndexAux u text.length text

/-- The fuel of `linkIndexAux` is exact: adding fuel beyond the text length
never changes the result, so `linkIndex` computes the Go loop's fixpoint. -/
theorem linkIndexAux_stable (u : List Char → Bool) :
    ∀ (fuel : Nat) (text : List Char), text.length ≤ fuel →
      linkIndexAux u (fuel + 1) text = linkIndexAux u fuel text := by
  intro fuel
  induction fuel with
  | zero =>
    intro text hlen
    have : text = [] := List.length_eq_zero.mp (Nat.le_zero.mp hlen)
    subst this
    simp [linkIndexAux, indexOfSub, httpPat, leadsWith]
  | succ n ih =>
    intro text hlen
    show linkIndexAux u (n + 1 + 1) text = linkIndexAux u (n + 1) text
    rw [linkIndexAux, linkIndexAux]
    cases hidx : indexOfSub httpPat text with
    | none => rfl
    | some i =>
      have hne : text ≠ [] := indexOfSub_ne_nil httpPat (by decide) text i hidx
      have hlt : (text.drop (i + 1)).length ≤ n := by
        have hpos : 0 < text.length := List.length_pos.mpr hne
        simp only [List.length_drop]
        omega
      simp only [ih (text.drop (i + 1)) hlt]

/-- Every link `linkIndexAux` returns carries an `http://` or `https://`
prefix, hence is non-empty; this is what makes `text.length` iterations of
the `emphasize` loop sufficient. -/
theorem linkIndexAux_link_pos (u : List Char → Bool) :
    ∀ (fuel : Nat) (text : List Char) (i : Nat) (link : List Char),
      linkIndexAux u fuel text = some (i, link) → 0 < link.length := by
  intro fuel
  induction fuel with
  | zero => intro text i link h; simp [linkIndexAux] at h
  | succ n ih =>
    intro text i link h
    rw [linkIndexAux] at h
    split at h
    · exact absurd h (by simp)
    · rename_i i0 hidx
      split at h
      · rename_i hcond
        simp only [Option.some.injEq, Prod.mk.injEq] at h
        obtain ⟨-, hl⟩ := h
        subst hl
        simp only [Bool.and_eq_true, Bool.or_eq_true] at hcond
        rcases hcond.1.1 with hp | hp
        · cases hlk : fieldAt text i0 with
          | nil => rw [hlk] at hp; simp [httpSlashes, leadsWith] at hp
          | cons c cs => simp [hlk]
        · cases hlk : fieldAt text i0 with
          | nil => rw [hlk] at hp; simp [httpsSlashes, leadsWith] at hp
          | cons c cs => simp [hlk]
      · simp only [Option.map_eq_some'] at h
        obtain ⟨⟨j, l⟩, hrec, heq⟩ := h
        simp only [Prod.mk.injEq] at heq
        obtain ⟨-, hl⟩ := heq
        subst hl
        exact ih (text.drop (i0 + 1)) j l hrec

/-- `em(s)`: wrap a non-empty string in `<em>` tags. -/
def em (s : List Char) : List Char :=
  if s != [] then "<em>".toList ++ s ++ "</em>".toList else s

/-- The loop of `emphasize(text)`, structurally recursive on a fuel bounding
the iterations: each iteration consumes the non-empty link (see
`linkIndexAux_link_pos`), so `text.length` iterations always suffice
(`emphasizeAux_stable` below).  The Go loop accumulates `str`; the direct
recursion below produces the same concatenation. -/
def emphasizeAux (u : List Char → Bool) : Nat → List Char → List Char
  | 0, text => em text
  | fuel + 1, text =>
    match linkIndex u text with
    | none => em text
    | some (i, link) =>
      em (text.take i) ++ link ++ emphasizeAux u fuel (text.drop (i + link.length))

/-- `emphasize(text)`: wrap all non-empty non-link spans in `<em>` tags;
links are emitted verbatim. -/
def emphasize (u : List Char → Bool) (text : List Char) : List Char :=
  emphasizeAux u text.length text

/-- The fuel of `emphasizeAux` is exact: at fuel `0` the text is empty, where
the loop would return `em text` anyway; adding fuel changes nothing. -/
theorem emphasizeAux_stable (u : List Char → Bool) :
    ∀ (fuel : Nat) (text : List Char), text.length ≤ fuel →
      emphasizeAux u (fuel + 1) text = emphasizeAux u fuel text := by
  intro fuel
  induction fuel with
  | zero =>
    intro text hlen
    have : text = [] := List.length_eq_zero.mp (Nat.le_zero.mp hlen)
    subst this
    simp [emphasizeAux, linkIndex, linkIndexAux]
  | succ n ih =>
    intro text hlen
    show emphasizeAux u (n + 1 + 1) text = emphasizeAux u (n + 1) text
    rw [emphasizeAux, emphasizeAux]
    cases hlk : linkIndex u text with
    | none => rfl
    | some p =>
      obtain ⟨i, link⟩ := p
      have hpos : 0 < link.length :=
        linkIndexAux_link_pos u text.length text i link hlk
      have hne : text ≠ [] := by
        intro ht
        subst ht
        simp [linkIndex, linkIndexAux] at hlk
      have hlt : (text.drop (i + link.length)).length ≤ n := by
        have : 0 < text.length := List.length_pos.mpr hne
        simp only [List.length_drop]
        omega
      simp only [ih (text.drop (i + link.length)) hlt]

/-- The plain (non-emote) tail of `formatText`: trim, and with a sender
prepend `"<b>"+name+":</b> "`. -/
def formatTail (sender : Option User) (text : List Char) : String :=
  let t := trimSpace text
  match sender with
  | some usr =>
    String.mk ("<b>".toList ++ usr.name.toList ++ ":</b> ".toList ++ t)
  | none => String.mk t

def mePat : List Char := "/me".toList

/-- The body of `formatText` after the initial
`text := html.EscapeString(msg.Text)` assignment, over the sender and the
escaped text: if the text begins with `/me` followed by nothing or
non-newline whitespace, strip the prefix, trim, emphasize non-link spans and
prepend `"<b>"+name+"</b> "`; otherwise fall through to the plain tail. -/
def formatEscaped (u : List Char → Bool) (sender : Option User)
    (text : List Char) : String :=
  if leadsWith mePat text then
    let rest := text.drop mePat.length
    if rest == [] ||
        (match rest with
         | c :: _ => isNonNewlineSpace c
         | [] => false) then
      let t := emphasize u (trimSpace rest)
      match sender with
      | some usr => String.mk ("<b>".toList ++ usr.name.toList ++ "</b> ".toList ++ t)
      | none => String.mk t
    else formatTail sender text
  else formatTail sender text

/-- `formatText(msg)` of telegram `format.go`. -/
def formatText (u : List Char → Bool) (msg : Message) : String :=
  formatEscaped u msg.from_ (htmlEscape msg.text.toList)

/-! ## History eviction (claim C1) -/

/-- At capacity, the current `logMessage` drops the oldest entry and keeps
the new one (strict FIFO): `log[1:]` after the append. -/
theorem logMessage_at_cap (log : List LogEntry) (e : LogEntry)
    (h : log.length = maxHistory) : logMessage log e = log.drop 1 ++ [e] := by
  unfold logMessage
  have hgt : (log ++ [e]).length > maxHistory := by
    rw [List.length_append, h, List.length_singleton]
    decide
  rw [if_pos hgt]
  exact List.drop_append_of_le_length (by rw [h]; decide)

/-- At capacity, the older revision's `logMessage` truncates to the first
`maxHistory` entries, i.e. keeps the oldest 500 and discards the entry it
just appended. -/
theorem logMessage_v1_at_cap (log : List EntryV1) (e : EntryV1)
    (h : log.length = maxHistory) : logMessage_v1 log e = log := by
  unfold logMessage_v1
  have hgt : (log ++ [e]).length > maxHistory := by
    rw [List.length_append, h, List.length_singleton]
    decide
  rw [if_pos hgt, ← h, List.take_left]

/-- C1 (code_bug).  The claim states strict FIFO eviction for every
`logMessage` call at capacity.  The current revision (`log = log[1:]`)
satisfies it, but `bridge/bridge.go`'s `logMessage` truncates with
`log[:maxHistory]`: at a full log the newly appended entry is discarded and
the oldest 500 are kept, so the log is not the 500 most recently recorded
entries.  Below, a full log of 500 `old` entries receives a `fresh` entry:
the older revision returns the log unchanged, `fresh` absent; the current
revision drops the oldest and retains `fresh` last, length still 500. -/
theorem logMessage_truncation_bug :
    (logMessage_v1 (List.replicate 500 (⟨⟨0, "a", "A"⟩, []⟩ : EntryV1))
        ⟨⟨1, "b", "B"⟩, []⟩ =
      List.replicate 500 (⟨⟨0, "a", "A"⟩, []⟩ : EntryV1)) ∧
    ((⟨⟨1, "b", "B"⟩, []⟩ : EntryV1) ∉
      logMessage_v1 (List.replicate 500 (⟨⟨0, "a", "A"⟩, []⟩ : EntryV1))
        ⟨⟨1, "b", "B"⟩, []⟩) ∧
    (logMessage (List.replicate 500 ([⟨some ⟨0, "a", "A"⟩, zeroMessage⟩] : LogEntry))
        [⟨some ⟨1, "b", "B"⟩, zeroMessage⟩] =
      List.replicate 499 ([⟨some ⟨0, "a", "A"⟩, zeroMessage⟩] : LogEntry) ++
        [[⟨some ⟨1, "b", "B"⟩, zeroMessage⟩]]) ∧
    (logMessage (List.replicate 500 ([⟨some ⟨0, "a", "A"⟩, zeroMessage⟩] : LogEntry))
        [⟨some ⟨1, "b", "B"⟩, zeroMessage⟩]).length = 500 := by
  have hv1 := logMessage_v1_at_cap
    (List.replicate 500 (⟨⟨0, "a", "A"⟩, []⟩ : EntryV1)) ⟨⟨1, "b", "B"⟩, []⟩
    (by rw [List.length_replicate]; decide)
  have hcur := logMessage_at_cap
    (List.replicate 500 ([⟨some ⟨0, "a", "A"⟩, zeroMessage⟩] : LogEntry))
    [⟨some ⟨1, "b", "B"⟩, zeroMessage⟩] (by rw [List.length_replicate]; decide)
  have hdrop : List.drop 1
      (List.replicate 500 ([⟨some ⟨0, "a", "A"⟩, zeroMessage⟩] : LogEntry)) =
      List.replicate 499 ([⟨some ⟨0, "a", "A"⟩, zeroMessage⟩] : LogEntry) := by
    rw [show (500 : Nat) = 499 + 1 from rfl, List.replicate_succ,
      List.drop_succ_cons, List.drop_zero]
  refine ⟨hv1, ?_, ?_, ?_⟩
  · rw [hv1]
    simp only [List.mem_replicate]
    intro hmem
    exact absurd (congrArg EntryV1.origin hmem.2) (by decide)
  · rw [hcur, hdrop]
  · rw [hcur, List.length_append, List.length_drop, List.length_replicate,
      List.length_singleton]

/-! ## Concrete fixtures -/

def chA : Channel := ⟨0, "a", "A"⟩

def chB : Channel := ⟨1, "b", "B"⟩

def chC : Channel := ⟨2, "c", "C"⟩

def bridgeC : Channel := ⟨9, "bridge", "bridge"⟩

/-- A user observed on channel `chA` with display name "Alice". -/
def aliceA : User := ⟨"u1", "alice", "Alice L", "Alice", "", some chA⟩

/-- Adapters that succeed: `Send` assigns an id derived from the channel
name, `Edit` returns the message unchanged, `Delete` succeeds. -/
def okEnv : Env :=
  { send := fun ch m => (m.withID ("sent-" ++ ch.name), none)
    edit := fun _ m => (m, none)
    del := fun _ _ => none }

/-- Adapters whose `Send` always fails with a protocol error. -/
def failEnv : Env :=
  { send := fun _ _ => (zeroMessage, some (.str "boom"))
    edit := fun _ m => (m, none)
    del := fun _ _ => none }

/-! ## Edit of an evicted message (claim C2) -/

/-- In the current revision an Edit whose original message is not in the
history is a no-op: no calls, no error, the log unchanged. -/
theorem relay_edit_absent_noop (env : Env) (channels : List Channel)
    (log : List LogEntry) (origId : String) (new : Message) (origin : Channel)
    (ho : (Event.edit origId new).origin = some origin)
    (hf : makeFindMessage log origin origId origin = none) :
    relay env channels log (.edit origId new) = some ([], .ok log) := by
  unfold relay
  rw [ho]
  simp only [hf]

/-- C2 (code_bug).  The claim states that an Edit for an id absent from the
history makes no adapter calls, appends nothing, returns no error and does
not crash.  The current revision satisfies it (first conjunct: empty call
trace, `ok` with the log unchanged).  The older `bridge/bridge.go` revision
has no absence guard: `editMessage` makes no calls (no channel has a copy),
but `origMsg := *findMessage(origin)` then dereferences a nil pointer —
second conjunct: the relay's Edit branch panics (`none`). -/
theorem relay_edit_absent_divergence :
    (relay okEnv [chA, chB] []
        (.edit "9" ⟨"9n", none, some aliceA, "ho"⟩) = some ([], .ok [])) ∧
    (relayEdit_v1 okEnv bridgeC [chA, chB] [] chA "9"
        ⟨"9n", none, some aliceA, "ho"⟩ = none) := by
  decide

/-! ## Telegram Leave events (claim C3) -/

def noPhoto : Int → String := fun _ => ""

def bobT : TeleUser := ⟨7, "Bob", "", "bob"⟩

def aliceT : TeleUser := ⟨8, "Alice", "", "alice"⟩

/-- An ordinary leave update: only `LeftChatMember` is set. -/
def leaveUpd : TeleUpdate :=
  ⟨1, some ⟨10, some bobT, 5, none, none, some bobT, none⟩, none⟩

/-- A contrived update carrying both member fields. -/
def bothUpd : TeleUpdate :=
  ⟨2, some ⟨11, some bobT, 5, none, some aliceT, some bobT, none⟩, none⟩

/-- C3 (code_bug).  The claim requires every update with `LeftChatMember`
set to map to `Leave{Who: the user who left}`.  The current `chatEvent`
builds the Leave's user from `*msg.NewChatMember` instead: on an ordinary
leave update (`NewChatMember` nil) it dereferences a nil pointer and panics
(first conjunct), never producing `Leave{Who: Bob}` (second conjunct), and
when both fields are set the earlier `NewChatMember` case wins and the
update maps to a Join carrying the other user (third conjunct). -/
theorem chatEvent_leave_wrong_user :
    (chatEvent noPhoto chA 0 leaveUpd = .crashed) ∧
    (chatEvent noPhoto chA 0 leaveUpd ≠
      .produced (.leave (chatUser noPhoto chA bobT))) ∧
    (chatEvent noPhoto chA 0 bothUpd =
      .produced (.join (chatUser noPhoto chA aliceT))) := by
  decide

/-! ## Edit fan-out and the equal-text skip (claim C4) -/

/-- A history entry distributing one message over `chA` (origin, id `a1`,
text "hi"), `chB` (id `b1`, text already "ho") and `chC` (id `c1`,
text "hi"). -/
def c4Entry : LogEntry :=
  [⟨some chA, ⟨"a1", none, some aliceA, "hi"⟩⟩,
   ⟨some chB, ⟨"b1", none, none, "ho"⟩⟩,
   ⟨some chC, ⟨"c1", none, none, "hi"⟩⟩]

/-- C4 (code_bug).  The claim: a sibling whose recorded text already equals
the new text receives no edit call; every other sibling with a copy receives
exactly one edit call with its recorded id and the new text.  Editing `a1`
to "ho": the current `editMessage` skips `chB` (text already "ho") and
issues exactly one call, to `chC`, carrying `chC`'s recorded id `c1` and the
new text (first conjunct).  The older `bridge/bridge.go` `editMessage` has
no skip: it also calls `Edit` on `chB` (second conjunct), violating the
claim. -/
theorem editMessage_equal_text_divergence :
    ((editMessage okEnv [chB, chC] (makeFindMessage [c4Entry] chA "a1") "ho").1 =
      [.edit chC ⟨"c1", none, none, "ho"⟩]) ∧
    ((editMessage_v1 okEnv [chB, chC] (makeFindMessage [c4Entry] chA "a1") "ho").1 =
      [.edit chB ⟨"b1", none, none, "ho"⟩, .edit chC ⟨"c1", none, none, "ho"⟩]) := by
  decide

/-! ## The me-emote formatter (claim C5) -/

/-- One unfolding of the `emphasize` loop. -/
theorem emphasizeAux_succ (u : List Char → Bool) (fuel : Nat)
    (text : List Char) :
    emphasizeAux u (fuel + 1) text =
      match linkIndex u text with
      | none => em text
      | some (i, link) =>
        em (text.take i) ++ link ++ emphasizeAux u fuel (text.drop (i + link.length)) :=
  rfl

/-- C5 (confirmed).  With any URL oracle accepting "https://e.com" (Go's
`url.Parse` does): first, the concrete me-emote scenario — text
`"/me waves at https://e.com"` from a sender displayed "Bob" formats to
exactly `"<b>Bob</b> <em>waves at </em>https://e.com"`; second, in general,
whenever the escaped text is `/me` followed by a non-newline whitespace
rune, the prefix is stripped, the remainder trimmed of non-newline
whitespace and emphasized (links verbatim, per `emphasize`), and a non-nil
sender prepends `"<b>"+name+"</b> "`. -/
theorem formatText_me_emote (u : List Char → Bool)
    (hu : u "https://e.com".toList = true) :
    (formatText u ⟨"", none, some ⟨"", "", "", "Bob", "", none⟩,
        "/me waves at https://e.com"⟩ =
      "<b>Bob</b> <em>waves at </em>https://e.com") ∧
    (∀ (msg : Message) (c : Char) (rest : List Char) (usr : User),
      htmlEscape msg.text.toList = '/' :: 'm' :: 'e' :: c :: rest →
      isNonNewlineSpace c = true →
      msg.from_ = some usr →
      formatText u msg =
        String.mk ("<b>".toList ++ usr.name.toList ++ "</b> ".toList ++
          emphasize u (trimSpace (c :: rest)))) := by
  have h1 : linkIndex u "waves at https://e.com".toList =
      if u "https://e.com".toList = true then
        some (9, "https://e.com".toList)
      else none := rfl
  have h1' : linkIndex u "waves at https://e.com".toList =
      some (9, "https://e.com".toList) := by
    rw [h1, hu]
    simp
  have h2 : emphasize u "waves at https://e.com".toList =
      "<em>waves at </em>https://e.com".toList := by
    have e1 : emphasize u "waves at https://e.com".toList =
        emphasizeAux u (21 + 1) "waves at https://e.com".toList := rfl
    rw [e1, emphasizeAux_succ, h1']
    rfl
  constructor
  · have e0 : formatText u ⟨"", none, some ⟨"", "", "", "Bob", "", none⟩,
        "/me waves at https://e.com"⟩ =
        String.mk ("<b>".toList ++ "Bob".toList ++ "</b> ".toList ++
          emphasize u "waves at https://e.com".toList) := rfl
    rw [e0, h2]
    decide
  · intro msg c rest usr hesc hspace hfrom
    have e1 : formatText u msg =
        formatEscaped u msg.from_ (htmlEscape msg.text.toList) := rfl
    rw [e1, hesc, hfrom]
    have step1 : formatEscaped u (some usr) ('/' :: 'm' :: 'e' :: c :: rest) =
        if isNonNewlineSpace c = true then
          String.mk ("<b>".toList ++ usr.name.toList ++ "</b> ".toList ++
            emphasize u (trimSpace (c :: rest)))
        else formatTail (some usr) ('/' :: 'm' :: 'e' :: c :: rest) := rfl
    rw [step1, if_pos hspace]

/-- Witness for C5 at the all-accepting oracle. -/
theorem formatText_me_emote_witness :
    (fun _ => true : List Char → Bool) "https://e.com".toList = true ∧
    formatText (fun _ => true) ⟨"", none, some ⟨"", "", "", "Bob", "", none⟩,
        "/me waves at https://e.com"⟩ =
      "<b>Bob</b> <em>waves at </em>https://e.com" :=
  ⟨rfl, (formatText_me_emote (fun _ => true) rfl).1⟩

/-! ## Log-entry invariant (claim C6) -/

/-- A successful `fanCollect` returns exactly the goroutines' slots. -/
theorem fanCollect_ok (per : List FanRes) (calls : List Call)
    (copies : List Copy) (h : fanCollect per = (calls, .ok copies)) :
    copies = per.map FanRes.copy := by
  unfold fanCollect at h
  cases hw : groupWait per with
  | some e => rw [hw] at h; simp at h
  | none =>
    rw [hw] at h
    have := congrArg Prod.snd h
    simp only at this
    exact ((Except.ok.injEq ..).mp this).symm

/-- Successful `sendMessage` fills one slot per channel, in channel order,
each carrying that channel (`messages[i] = message{To: ch, Msg: m}`). -/
theorem sendMessage_ok_shape (env : Env) (log : List LogEntry)
    (channels : List Channel) (msg : Message) (calls : List Call)
    (copies : List Copy)
    (h : sendMessage env log channels msg = some (calls, .ok copies)) :
    ∃ fr : Channel → Option Message,
      copies = channels.map fun ch =>
        (⟨some ch,
          (env.send ch (msg.withReplyTo ((fr ch).map Message.toR))).1⟩ : Copy) := by
  unfold sendMessage at h
  cases hfr : findReplyFn log msg with
  | none => rw [hfr] at h; simp at h
  | some fr =>
    rw [hfr] at h
    simp only [Option.map_some', Option.some.injEq] at h
    refine ⟨fr, ?_⟩
    rw [fanCollect_ok _ _ _ h, List.map_map]
    rfl

/-- Copies of the shape `channels₀ + one extra channel` satisfy the log-entry
invariant when the channels are distinct and the extra one is fresh. -/
theorem entry_invariant_of_shape (channels0 : List Channel)
    (extraCh : Channel) (extraMsg : Message) (fr : Channel → Message)
    (hnd0 : channels0.Nodup) (hout : extraCh ∉ channels0) :
    (((channels0.map fun ch => (⟨some ch, fr ch⟩ : Copy)) ++
        [(⟨some extraCh, extraMsg⟩ : Copy)]).map Copy.to_).Nodup ∧
    (⟨some extraCh, extraMsg⟩ : Copy) ∈
      ((channels0.map fun ch => (⟨some ch, fr ch⟩ : Copy)) ++
        [(⟨some extraCh, extraMsg⟩ : Copy)]) ∧
    (∀ ch ∈ channels0, ∃ m, (⟨some ch, m⟩ : Copy) ∈
      ((channels0.map fun ch => (⟨some ch, fr ch⟩ : Copy)) ++
        [(⟨some extraCh, extraMsg⟩ : Copy)])) := by
  refine ⟨?_, ?_, ?_⟩
  · rw [List.map_append, List.map_map]
    rw [List.nodup_append]
    refine ⟨?_, by simp, ?_⟩
    · have : (Copy.to_ ∘ fun ch => (⟨some ch, fr ch⟩ : Copy)) = some := rfl
      rw [this]
      exact hnd0.map (Option.some_injective Channel)
    · intro x hx hy
      simp only [List.map_map, List.mem_map, Function.comp] at hx
      obtain ⟨ch, hch, hx⟩ := hx
      simp only [List.map_cons, List.map_nil, List.mem_singleton] at hy
      subst hy
      have : ch = extraCh := Option.some_injective Channel (by exact hx)
      subst this
      exact hout hch
  · exact List.mem_append_right _ (List.mem_singleton.mpr rfl)
  · intro ch hch
    exact ⟨fr ch, List.mem_append_left _
      (List.mem_map_of_mem (fun c => (⟨some c, fr c⟩ : Copy)) hch)⟩

/-- The channels relayed to: distinct and free of the origin. -/
theorem allChannelsExcept_nodup (channels : List Channel) (origin : Channel)
    (hnd : channels.Nodup) :
    (allChannelsExcept channels origin).Nodup ∧
      origin ∉ allChannelsExcept channels origin ∧
      ∀ ch ∈ channels, ch ≠ origin → ch ∈ allChannelsExcept channels origin := by
  refine ⟨hnd.filter _, ?_, ?_⟩
  · intro hmem
    rw [allChannelsExcept, List.mem_filter] at hmem
    simp at hmem
  · intro ch hch hne
    rw [allChannelsExcept, List.mem_filter]
    exact ⟨hch, by simp [hne]⟩

/-- C6 (confirmed).  Every log entry recorded by the Message relay or by the
Bridge's own `Send` mentions each channel at most once, contains the
originating channel's message (for `Send`, the bridge's own copy), and
contains a copy for every sibling the fan-out reached — in particular every
sibling whose send succeeded (with distinct bridged channels; for `Send`,
the bridge handle is not among them). -/
theorem relay_send_log_entry_invariant (env : Env) (channels : List Channel)
    (log : List LogEntry) (ev : Message) (origin : Channel) (bridge : Channel)
    (st : BState) (msg : Message) (calls scalls : List Call)
    (log' : List LogEntry) (st' : BState) (sm : Message)
    (hnd : channels.Nodup)
    (ho : (Event.message ev).origin = some origin)
    (hrel : relay env channels log (.message ev) = some (calls, .ok log'))
    (hb : bridge ∉ channels)
    (hsend : bridgeSend env bridge channels st msg = some (scalls, st', sm, none)) :
    (∃ entry : LogEntry, log' = logMessage log entry ∧
      (entry.map Copy.to_).Nodup ∧
      (⟨some origin, ev⟩ : Copy) ∈ entry ∧
      (∀ ch ∈ channels, ch ≠ origin → ∃ m, (⟨some ch, m⟩ : Copy) ∈ entry)) ∧
    (∃ entry : LogEntry, st'.log = logMessage st.log entry ∧
      (entry.map Copy.to_).Nodup ∧
      (⟨some bridge, sm⟩ : Copy) ∈ entry ∧
      (∀ ch ∈ channels, ∃ m, (⟨some ch, m⟩ : Copy) ∈ entry)) := by
  obtain ⟨hsnd, hnomem, hsib⟩ := allChannelsExcept_nodup channels origin hnd
  constructor
  · simp only [relay, ho] at hrel
    cases hsm : sendMessage env log (allChannelsExcept channels origin) ev with
    | none => rw [hsm] at hrel; exact absurd hrel (by simp)
    | some p =>
      obtain ⟨calls0, res⟩ := p
      rw [hsm] at hrel
      simp only [Option.map_some'] at hrel
      cases res with
      | error e => simp at hrel
      | ok msgs =>
        simp only [Option.some.injEq, Prod.mk.injEq, Except.ok.injEq] at hrel
        have hlog : log' = logMessage log (msgs ++ [⟨some origin, ev⟩]) :=
          hrel.2.symm
        obtain ⟨fr, hshape⟩ := sendMessage_ok_shape env log
          (allChannelsExcept channels origin) ev calls0 msgs hsm
        refine ⟨msgs ++ [⟨some origin, ev⟩], hlog, ?_⟩
        rw [hshape]
        obtain ⟨h1, h2, h3⟩ := entry_invariant_of_shape
          (allChannelsExcept channels origin) origin ev
          (fun ch => (env.send ch (ev.withReplyTo ((fr ch).map Message.toR))).1)
          hsnd hnomem
        exact ⟨h1, h2, fun ch hch hne => h3 ch (hsib ch hch hne)⟩
  · unfold bridgeSend at hsend
    cases hsm : sendMessage env st.log channels msg with
    | none => rw [hsm] at hsend; exact absurd hsend (by simp)
    | some p =>
      obtain ⟨calls0, res⟩ := p
      rw [hsm] at hsend
      simp only [Option.map_some'] at hsend
      cases res with
      | error e => simp at hsend
      | ok msgs =>
        simp only [Option.some.injEq, Prod.mk.injEq] at hsend
        have hst : st' = ⟨st.nextID + 1,
            logMessage st.log
              (msgs ++ [⟨some bridge, msg.withID (toString st.nextID)⟩])⟩ :=
          hsend.2.1.symm
        have hsm' : sm = msg.withID (toString st.nextID) := hsend.2.2.1.symm
        obtain ⟨fr, hshape⟩ := sendMessage_ok_shape env st.log channels msg
          calls0 msgs hsm
        refine ⟨msgs ++ [⟨some bridge, sm⟩], by rw [hst, hsm'], ?_⟩
        rw [hshape]
        obtain ⟨h1, h2, h3⟩ := entry_invariant_of_shape channels bridge sm
          (fun ch => (env.send ch (msg.withReplyTo ((fr ch).map Message.toR))).1)
          hnd hb
        exact ⟨h1, h2, fun ch hch => h3 ch hch⟩

/-- Witness for C6: a two-channel bridge relaying `"hi"` from `chA` and
`Send`ing `"yo"` itself. -/
theorem relay_send_log_entry_invariant_witness :
    (∃ entry : LogEntry,
      ([[⟨some chB, ⟨"sent-b", none, some aliceA, "hi"⟩⟩,
         ⟨some chA, ⟨"m1", none, some aliceA, "hi"⟩⟩]] : List LogEntry) =
        logMessage [] entry ∧
      (entry.map Copy.to_).Nodup ∧
      (⟨some chA, ⟨"m1", none, some aliceA, "hi"⟩⟩ : Copy) ∈ entry ∧
      (∀ ch ∈ [chA, chB], ch ≠ chA → ∃ m, (⟨some ch, m⟩ : Copy) ∈ entry)) ∧
    (∃ entry : LogEntry,
      (BState.mk 1
        [[⟨some chA, ⟨"sent-a", none, none, "yo"⟩⟩,
          ⟨some chB, ⟨"sent-b", none, none, "yo"⟩⟩,
          ⟨some bridgeC, ⟨"0", none, none, "yo"⟩⟩]]).log =
        logMessage ([] : List LogEntry) entry ∧
      (entry.map Copy.to_).Nodup ∧
      (⟨some bridgeC, ⟨"0", none, none, "yo"⟩⟩ : Copy) ∈ entry ∧
      (∀ ch ∈ [chA, chB], ∃ m, (⟨some ch, m⟩ : Copy) ∈ entry)) :=
  relay_send_log_entry_invariant okEnv [chA, chB] [] ⟨"m1", none, some aliceA, "hi"⟩
    chA bridgeC ⟨0, []⟩ ⟨"", none, none, "yo"⟩
    [.send chB ⟨"m1", none, some aliceA, "hi"⟩]
    [.send chA ⟨"", none, none, "yo"⟩, .send chB ⟨"", none, none, "yo"⟩]
    [[⟨some chB, ⟨"sent-b", none, some aliceA, "hi"⟩⟩,
      ⟨some chA, ⟨"m1", none, some aliceA, "hi"⟩⟩]]
    (BState.mk 1
      [[⟨some chA, ⟨"sent-a", none, none, "yo"⟩⟩,
        ⟨some chB, ⟨"sent-b", none, none, "yo"⟩⟩,
        ⟨some bridgeC, ⟨"0", none, none, "yo"⟩⟩]])
    ⟨"0", none, none, "yo"⟩
    (by decide) (by decide) (by decide) (by decide) (by decide)

/-! ## Relay errors and the mux loop (claim C7) -/

/-- A failing `fanCollect` reports the `errgroup` error. -/
theorem fanCollect_error (per : List FanRes) (calls : List Call) (e : GoErr)
    (h : fanCollect per = (calls, .error e)) : groupWait per = some e := by
  unfold fanCollect at h
  cases hw : groupWait per with
  | none => rw [hw] at h; simp at h
  | some e0 =>
    rw [hw] at h
    have := congrArg Prod.snd h
    simp only at this
    rw [(Except.error.injEq ..).mp this]

/-- Any error `groupWait` reports comes from some goroutine's `err` slot. -/
theorem groupWait_mem (per : List FanRes) (e : GoErr)
    (h : groupWait per = some e) : ∃ r ∈ per, r.err = some e := by
  unfold groupWait at h
  cases hl : per.filterMap FanRes.err with
  | nil => rw [hl] at h; simp at h
  | cons x xs =>
    rw [hl] at h
    simp only [List.head?_cons, Option.some.injEq] at h
    subst h
    have hx : x ∈ per.filterMap FanRes.err := by rw [hl]; exact List.mem_cons_self x xs
    obtain ⟨r, hr, hre⟩ := List.mem_filterMap.mp hx
    exact ⟨r, hr, hre⟩

/-- Every goroutine error the fan-out helpers report is a wrapped string
error (`fmt.Errorf`), never `io.EOF`. -/
theorem sendPer_err_str (env : Env) (fr : Channel → Option Message)
    (msg : Message) (ch : Channel) (e : GoErr)
    (h : (sendPer env fr msg ch).err = some e) : ∃ s, e = .str s := by
  unfold sendPer at h
  simp only at h
  split at h
  · simp at h
  · split at h
    · simp at h
    · exact ⟨_, ((Option.some.injEq ..).mp h).symm⟩

theorem editPer_err_str (env : Env) (fm : Channel → Option Message)
    (text : String) (ch : Channel) (e : GoErr)
    (h : (editPer env fm text ch).err = some e) : ∃ s, e = .str s := by
  unfold editPer at h
  split at h
  · simp at h
  · split at h
    · simp at h
    · simp only at h
      split at h
      · simp only at h
        exact ⟨_, ((Option.some.injEq ..).mp h).symm⟩
      · simp at h

theorem delPer_err_str (env : Env) (fm : Channel → Option Message)
    (ch : Channel) (e : GoErr)
    (h : (delPer env fm ch).err = some e) : ∃ s, e = .str s := by
  unfold delPer at h
  split at h
  · simp at h
  · split at h
    · simp only at h
      exact ⟨_, ((Option.some.injEq ..).mp h).symm⟩
    · simp at h

theorem sendMessage_error_str (env : Env) (log : List LogEntry)
    (channels : List Channel) (msg : Message) (calls : List Call) (e : GoErr)
    (h : sendMessage env log channels msg = some (calls, .error e)) :
    ∃ s, e = .str s := by
  unfold sendMessage at h
  cases hfr : findReplyFn log msg with
  | none => rw [hfr] at h; simp at h
  | some fr =>
    rw [hfr] at h
    simp only [Option.map_some', Option.some.injEq] at h
    obtain ⟨r, hr, hre⟩ := groupWait_mem _ _ (fanCollect_error _ _ _ h)
    obtain ⟨ch, -, hch⟩ := List.mem_map.mp hr
    exact sendPer_err_str env fr msg ch e (hch ▸ hre)

theorem editMessage_error_str (env : Env) (channels : List Channel)
    (fm : Channel → Option Message) (text : String) (calls : List Call)
    (e : GoErr) (h : editMessage env channels fm text = (calls, .error e)) :
    ∃ s, e = .str s := by
  unfold editMessage at h
  obtain ⟨r, hr, hre⟩ := groupWait_mem _ _ (fanCollect_error _ _ _ h)
  obtain ⟨ch, -, hch⟩ := List.mem_map.mp hr
  exact editPer_err_str env fm text ch e (hch ▸ hre)

theorem deleteMessage_error_str (env : Env) (channels : List Channel)
    (fm : Channel → Option Message) (calls : List Call) (e : GoErr)
    (h : deleteMessage env channels fm = (calls, some e)) :
    ∃ s, e = .str s := by
  unfold deleteMessage at h
  have := congrArg Prod.snd h
  simp only at this
  obtain ⟨r, hr, hre⟩ := groupWait_mem _ _ this
  obtain ⟨ch, -, hch⟩ := List.mem_map.mp hr
  exact delPer_err_str env fm ch e (hch ▸ hre)

/-- Every error `relay` returns is a wrapped string error — in particular it
is never `io.EOF`, so `Close` returns it unchanged. -/
theorem relay_error_str (env : Env) (channels : List Channel)
    (log : List LogEntry) (event : Event) (calls : List Call) (e : GoErr)
    (h : relay env channels log event = some (calls, .error e)) :
    ∃ s, e = .str s := by
  cases horig : event.origin with
  | none => unfold relay at h; rw [horig] at h; simp at h
  | some origin =>
    cases event with
    | message m =>
      simp only [relay, horig] at h
      cases hsm : sendMessage env log (allChannelsExcept channels origin) m with
      | none => rw [hsm] at h; simp at h
      | some p =>
        obtain ⟨c0, res⟩ := p
        rw [hsm] at h
        cases res with
        | error e0 =>
          simp only [Option.map_some', Option.some.injEq, Prod.mk.injEq,
            Except.error.injEq] at h
          exact h.2 ▸ sendMessage_error_str env log _ m c0 e0 hsm
        | ok msgs => simp at h
    | reply r1 r2 => simp only [relay, horig] at h; simp at h
    | delete id ch0 =>
      simp only [relay, horig] at h
      rcases hdm : deleteMessage env (allChannelsExcept channels origin)
        (makeFindMessage log origin id) with ⟨c0, err0⟩
      rw [hdm] at h
      cases err0 with
      | none => simp at h
      | some e0 =>
        simp only [Option.some.injEq, Prod.mk.injEq, Except.error.injEq] at h
        exact h.2 ▸ deleteMessage_error_str env _ _ c0 e0 hdm
    | edit origId new =>
      simp only [relay, horig] at h
      cases hfm : makeFindMessage log origin origId origin with
      | none => rw [hfm] at h; simp at h
      | some origMsg =>
        rw [hfm] at h
        rcases hem : editMessage env (allChannelsExcept channels origin)
          (makeFindMessage log origin origId) new.text with ⟨c0, res⟩
        rw [hem] at h
        cases res with
        | error e0 =>
          simp only [Option.some.injEq, Prod.mk.injEq, Except.error.injEq] at h
          exact h.2 ▸ editMessage_error_str env _ _ new.text c0 e0 hem
        | ok msgs => simp at h
    | join who =>
      simp only [relay, horig] at h
      cases hsm : sendMessage env log (allChannelsExcept channels origin)
        ⟨"", none, none, who.name ++ " joined " ++
          (origin.name ++ " on " ++ origin.service)⟩ with
      | none => rw [hsm] at h; simp at h
      | some p =>
        obtain ⟨c0, res⟩ := p
        rw [hsm] at h
        cases res with
        | error e0 =>
          simp only [Option.map_some', Option.some.injEq, Prod.mk.injEq,
            Except.error.injEq] at h
          exact h.2 ▸ sendMessage_error_str env log _ _ c0 e0 hsm
        | ok msgs => simp at h
    | leave who =>
      simp only [relay, horig] at h
      cases hsm : sendMessage env log (allChannelsExcept channels origin)
        ⟨"", none, none, who.name ++ " left " ++
          (origin.name ++ " on " ++ origin.service)⟩ with
      | none => rw [hsm] at h; simp at h
      | some p =>
        obtain ⟨c0, res⟩ := p
        rw [hsm] at h
        cases res with
        | error e0 =>
          simp only [Option.map_some', Option.some.injEq, Prod.mk.injEq,
            Except.error.injEq] at h
          exact h.2 ▸ sendMessage_error_str env log _ _ c0 e0 hsm
        | ok msgs => simp at h
    | rename f t =>
      simp only [relay, horig] at h
      by_cases hname : (f.name == t.name) = true
      · rw [if_pos hname] at h; simp at h
      · rw [if_neg hname] at h
        cases hsm : sendMessage env log (allChannelsExcept channels origin)
          ⟨"", none, none, f.name ++ " renamed to " ++ t.name ++ " in " ++
            (origin.name ++ " on " ++ origin.service)⟩ with
        | none => rw [hsm] at h; simp at h
        | some p =>
          obtain ⟨c0, res⟩ := p
          rw [hsm] at h
          cases res with
          | error e0 =>
            simp only [Option.map_some', Option.some.injEq, Prod.mk.injEq,
              Except.error.injEq] at h
            exact h.2 ▸ sendMessage_error_str env log _ _ c0 e0 hsm
          | ok msgs => simp at h

/-- The mux loop over a prefix of successfully relayed events followed by an
event whose relay fails: the delivered events are exactly the prefix, the
log is the prefix's log, the error is published, and later events are never
processed. -/
theorem muxRun_prefix_error (env : Env) (channels : List Channel) (ev : Event)
    (post : List Event) (log1 : List LogEntry) (calls : List Call) (e : GoErr)
    (hev : relay env channels log1 ev = some (calls, .error e)) :
    ∀ (pre : List Event) (log0 : List LogEntry),
      muxRun env channels pre log0 = some (pre, log1, none) →
      muxRun env channels (pre ++ ev :: post) log0 = some (pre, log1, some e) := by
  intro pre
  induction pre with
  | nil =>
    intro log0 hpre
    have h0 : log0 = log1 := by
      unfold muxRun at hpre
      simp only [Option.some.injEq, Prod.mk.injEq] at hpre
      exact hpre.2.1
    subst h0
    show muxRun env channels (ev :: post) log0 = some ([], log0, some e)
    unfold muxRun
    rw [hev]
  | cons p pre' ih =>
    intro log0 hpre
    unfold muxRun at hpre
    cases hrp : relay env channels log0 p with
    | none => rw [hrp] at hpre; simp at hpre
    | some q =>
      obtain ⟨c0, res⟩ := q
      rw [hrp] at hpre
      cases res with
      | error e0 => simp at hpre
      | ok lg' =>
        simp only at hpre
        cases hm : muxRun env channels pre' lg' with
        | none => rw [hm] at hpre; simp at hpre
        | some t =>
          obtain ⟨delivered, l, r⟩ := t
          rw [hm] at hpre
          simp only [Option.map_some', Option.some.injEq, Prod.mk.injEq,
            List.cons.injEq] at hpre
          obtain ⟨⟨-, hdel⟩, hl, hr⟩ := hpre
          rw [hdel, hl, hr] at hm
          have hrec := ih lg' hm
          show muxRun env channels (p :: (pre' ++ ev :: post)) log0 = _
          unfold muxRun
          rw [hrp]
          simp only [hrec, Option.map_some']

/-- C7 (confirmed).  When the relay of an event fails, the mux loop forwards
the error to `closeError` and terminates: the event is not enqueued onto the
receive buffer (only the events before it are delivered), the history log
keeps only what the earlier events recorded, later events are not processed,
and `Close` returns exactly that error (relay errors are never `io.EOF`, so
`Close`'s EOF remapping does not fire). -/
theorem mux_relay_error_drops_event (env : Env) (channels : List Channel)
    (pre : List Event) (ev : Event) (post : List Event)
    (log0 log1 : List LogEntry) (calls : List Call) (e : GoErr)
    (hpre : muxRun env channels pre log0 = some (pre, log1, none))
    (hev : relay env channels log1 ev = some (calls, .error e)) :
    muxRun env channels (pre ++ ev :: post) log0 = some (pre, log1, some e) ∧
    bridgeClose (some e) = some e := by
  constructor
  · exact muxRun_prefix_error env channels ev post log1 calls e hev pre log0 hpre
  · obtain ⟨s, hs⟩ := relay_error_str env channels log1 ev calls e hev
    subst hs
    rfl

/-- Witness for C7: a message whose fan-out fails with a protocol error. -/
theorem mux_relay_error_drops_event_witness :
    muxRun failEnv [chA, chB]
        ([] ++ Event.message ⟨"m1", none, some aliceA, "hi"⟩ :: []) [] =
      some ([], [], some (.str "failed to send message to b on B: boom\n")) ∧
    bridgeClose (some (.str "failed to send message to b on B: boom\n")) =
      some (.str "failed to send message to b on B: boom\n") :=
  mux_relay_error_drops_event failEnv [chA, chB] []
    (.message ⟨"m1", none, some aliceA, "hi"⟩) [] [] []
    [.send chB ⟨"m1", none, some aliceA, "hi"⟩]
    (.str "failed to send message to b on B: boom\n")
    (by decide) (by decide)

/-! ## The long-poll offset cursor (claim C8) -/

/-- C8 (confirmed).  One poll iteration: an empty `getUpdates` result leaves
the offset unchanged and submits nothing; a non-empty result advances the
offset to the last update's id plus one (as a `uint64`) and submits exactly
the received batch; and under the long-poll contract (the server answers a
request carrying `offset` only with updates whose ids are at least `offset`
and below the `uint64` wrap) the offset never decreases, hence is monotone
non-decreasing across the iterations of `pollRun`. -/
theorem poll_offset_spec (o : Nat) (resp : List TeleUpdate)
    (rs : List (List TeleUpdate)) (hv : ValidResps o rs) :
    (resp = [] → pollStep o resp = (o, none)) ∧
    (∀ last, resp.getLast? = some last →
      pollStep o resp = ((last.updateID + 1) % 2 ^ 64, some resp)) ∧
    ((∀ u ∈ resp, o ≤ u.updateID ∧ u.updateID + 1 < 2 ^ 64) →
      o ≤ (pollStep o resp).1) ∧
    o ≤ pollRun o rs := by
  have step_mono : ∀ (o0 : Nat) (r : List TeleUpdate),
      (∀ u ∈ r, o0 ≤ u.updateID ∧ u.updateID + 1 < 2 ^ 64) →
      o0 ≤ (pollStep o0 r).1 := by
    intro o0 r hall
    unfold pollStep
    cases hl : r.getLast? with
    | none => exact le_refl o0
    | some last =>
      have hmem : last ∈ r := by
        obtain ⟨hne, heq⟩ :=
          List.mem_getLast?_eq_getLast (Option.mem_def.mpr hl)
        rw [heq]
        exact List.getLast_mem hne
      obtain ⟨h1, h2⟩ := hall last hmem
      simp only
      rw [Nat.mod_eq_of_lt h2]
      omega
  refine ⟨?_, ?_, step_mono o resp, ?_⟩
  · intro h
    subst h
    rfl
  · intro last hl
    unfold pollStep
    rw [hl]
  · induction hv with
    | nil o0 => exact le_refl o0
    | cons o0 r rs0 h tail ih =>
      calc o0 ≤ (pollStep o0 r).1 := step_mono o0 r h
        _ ≤ pollRun (pollStep o0 r).1 rs0 := ih
        _ = pollRun o0 (r :: rs0) := rfl

/-- Witness for C8: an empty response, a two-update batch, and a two-round
run obeying the long-poll contract. -/
theorem poll_offset_spec_witness :
    (pollStep 5 [] = (5, none)) ∧
    (pollStep 5 [⟨7, none, none⟩, ⟨9, none, none⟩] =
      ((9 + 1) % 2 ^ 64, some [⟨7, none, none⟩, ⟨9, none, none⟩])) ∧
    5 ≤ pollRun 5 [[⟨7, none, none⟩, ⟨9, none, none⟩], [⟨12, none, none⟩]] := by
  have hv : ValidResps 5 [[⟨7, none, none⟩, ⟨9, none, none⟩], [⟨12, none, none⟩]] :=
    .cons 5 _ _ (by decide) (.cons 10 _ _ (by decide) (.nil _))
  obtain ⟨h1, -, -, -⟩ := poll_offset_spec 5 []
    [[⟨7, none, none⟩, ⟨9, none, none⟩], [⟨12, none, none⟩]] hv
  obtain ⟨-, h2, -, h4⟩ :=
    poll_offset_spec 5 [⟨7, none, none⟩, ⟨9, none, none⟩]
      [[⟨7, none, none⟩, ⟨9, none, none⟩], [⟨12, none, none⟩]] hv
  exact ⟨h1 rfl, h2 ⟨9, none, none⟩ (by decide), h4⟩

/-! ## Join notifications (claim C9) -/

/-- Is this call a Send to channel `ch`? -/
def callTo (ch : Channel) : Call → Bool
  | .send ch1 _ => ch1 == ch
  | _ => false

/-- The calls of a `sendMessage` fan-out: one `Send` per channel, in channel
order. -/
theorem map_sendPer_flatMap (env : Env) (fr : Channel → Option Message)
    (msg : Message) :
    ∀ channels : List Channel,
      (channels.map (sendPer env fr msg)).flatMap FanRes.calls =
        channels.map fun ch =>
          Call.send ch (msg.withReplyTo ((fr ch).map Message.toR))
  | [] => rfl
  | ch :: rest => by
    have ih := map_sendPer_flatMap env fr msg rest
    simp only [List.map_cons, List.flatMap_cons]
    rw [ih]
    rfl

theorem sendMessage_calls (env : Env) (log : List LogEntry)
    (channels : List Channel) (msg : Message) (fr : Channel → Option Message)
    (hfr : findReplyFn log msg = some fr) :
    ∃ res, sendMessage env log channels msg =
      some (channels.map (fun ch =>
        Call.send ch (msg.withReplyTo ((fr ch).map Message.toR))), res) := by
  unfold sendMessage
  rw [hfr]
  simp only [Option.map_some']
  refine ⟨(fanCollect (channels.map (sendPer env fr msg))).2, ?_⟩
  have hc : (fanCollect (channels.map (sendPer env fr msg))).1 =
      channels.map fun ch =>
        Call.send ch (msg.withReplyTo ((fr ch).map Message.toR)) := by
    unfold fanCollect
    cases groupWait (channels.map (sendPer env fr msg)) with
    | none => exact map_sendPer_flatMap env fr msg channels
    | some e => exact map_sendPer_flatMap env fr msg channels
  exact congrArg some (Prod.ext hc rfl)

/-- C9 (confirmed).  Relaying a Join from `origin`: the adapter calls are
exactly one `Send` per sibling (none to the origin), each carrying the text
`who.displayName ++ " joined " ++ origin.name ++ " on " ++ origin.service`
with no sender and no reply; with distinct channels each sibling receives
exactly one call; and the history log is never modified (on success the
resulting log is the input log — nothing is recorded). -/
theorem relay_join_notification (env : Env) (channels : List Channel)
    (log : List LogEntry) (who : User) (origin : Channel)
    (hwc : who.channel = some origin) (hnd : channels.Nodup)
    (hdn : who.displayName ≠ "") :
    ∃ res, relay env channels log (.join who) =
      some ((allChannelsExcept channels origin).map fun ch =>
        Call.send ch ⟨"", none, none,
          who.displayName ++ " joined " ++
            (origin.name ++ " on " ++ origin.service)⟩, res) ∧
      (∀ log', res = .ok log' → log' = log) ∧
      (∀ ch ∈ channels, ch ≠ origin →
        ((allChannelsExcept channels origin).map fun ch0 =>
          Call.send ch0 (⟨"", none, none,
            who.displayName ++ " joined " ++
              (origin.name ++ " on " ++ origin.service)⟩ : Message)).countP
            (callTo ch) = 1) := by
  have hname : who.name = who.displayName := by
    unfold User.name
    rw [if_pos hdn]
  have horig : (Event.join who).origin = some origin := hwc
  obtain ⟨res0, hsm⟩ := sendMessage_calls env log (allChannelsExcept channels origin)
    ⟨"", none, none, who.name ++ " joined " ++
      (origin.name ++ " on " ++ origin.service)⟩ (fun _ => none) rfl
  rw [hname] at hsm
  have hcount : ∀ ch ∈ channels, ch ≠ origin →
      ((allChannelsExcept channels origin).map fun ch0 =>
        Call.send ch0 (⟨"", none, none,
          who.displayName ++ " joined " ++
            (origin.name ++ " on " ++ origin.service)⟩ : Message)).countP
          (callTo ch) = 1 := by
    intro ch hch hne
    rw [List.countP_map]
    show List.count ch (allChannelsExcept channels origin) = 1
    obtain ⟨hsnd, -, hsib⟩ := allChannelsExcept_nodup channels origin hnd
    exact List.count_eq_one_of_mem hsnd (hsib ch hch hne)
  cases res0 with
  | error e =>
    refine ⟨.error e, ?_, ?_, hcount⟩
    · simp only [relay, horig, hname]
      rw [hsm]
      rfl
    · intro log' hres
      simp at hres
  | ok msgs =>
    refine ⟨.ok log, ?_, ?_, hcount⟩
    · simp only [relay, horig, hname]
      rw [hsm]
      rfl
    · intro log' hres
      exact ((Except.ok.injEq ..).mp hres).symm

/-- Witness for C9: Alice joins on `chA` in a two-channel bridge. -/
theorem relay_join_notification_witness :
    ∃ res, relay okEnv [chA, chB] [] (.join aliceA) =
      some ((allChannelsExcept [chA, chB] chA).map fun ch =>
        Call.send ch ⟨"", none, none,
          aliceA.displayName ++ " joined " ++
            (chA.name ++ " on " ++ chA.service)⟩, res) ∧
      (∀ log', res = .ok log' → log' = ([] : List LogEntry)) ∧
      (∀ ch ∈ [chA, chB], ch ≠ chA →
        ((allChannelsExcept [chA, chB] chA).map fun ch0 =>
          Call.send ch0 (⟨"", none, none,
            aliceA.displayName ++ " joined " ++
              (chA.name ++ " on " ++ chA.service)⟩ : Message)).countP
            (callTo ch) = 1) :=
  relay_join_notification okEnv [chA, chB] [] aliceA chA
    (by decide) (by decide) (by decide)

/-! ## Failed Bridge.Send leaves the state untouched (claim C10) -/

/-- C10 (confirmed).  When the fan-out inside `Bridge.Send` fails, `Send`
returns the zero `chat.Message` together with that error, and the bridge
state is unchanged: the same `nextID` counter and the same history log (the
id assignment and `logMessage` run only after every send succeeded). -/
theorem bridgeSend_error_no_mutation (env : Env) (bridge : Channel)
    (channels : List Channel) (st : BState) (msg : Message)
    (calls : List Call) (e : GoErr)
    (h : sendMessage env st.log channels msg = some (calls, .error e)) :
    bridgeSend env bridge channels st msg =
      some (calls, st, zeroMessage, some e) := by
  unfold bridgeSend
  rw [h]
  rfl

/-- Witness for C10: both sends fail with a protocol error. -/
theorem bridgeSend_error_no_mutation_witness :
    bridgeSend failEnv bridgeC [chA, chB] ⟨5, []⟩ ⟨"", none, none, "hi"⟩ =
      some ([.send chA ⟨"", none, none, "hi"⟩, .send chB ⟨"", none, none, "hi"⟩],
        ⟨5, []⟩, zeroMessage,
        some (.str "failed to send message to a on A: boom\n")) :=
  bridgeSend_error_no_mutation failEnv bridgeC [chA, chB] ⟨5, []⟩
    ⟨"", none, none, "hi"⟩
    [.send chA ⟨"", none, none, "hi"⟩, .send chB ⟨"", none, none, "hi"⟩]
    (.str "failed to send message to a on A: boom\n") (by decide)

end VelourChat
